import Mathlib

/-!
Shallow embedding of `src/dynamo/tools/construct_velocity_tree.py` and proofs
about it.  Matrices are modelled as functions `ℕ → ℕ → α` over a linear
ordered field `α` (instantiated at `ℚ` for concrete evaluations and at `ℝ`
where the code takes logarithms); the shape of each matrix is carried by
explicit size arguments, and statements only quantify over in-range indices.
numpy's `inf`/`NaN` cleanups (`res[res == np.inf] = 0`, `np.nan_to_num`) are
modelled by explicit zero-substitution at the division / logarithm sites,
which is exact for the nonnegative data the claims quantify over.
-/

set_option autoImplicit false

namespace DynamoTree

variable {α : Type} [LinearOrderedField α]

/-! ### Definitions: Cluster Transition Aggregator (`_compute_transition_matrix`) -/

/-- Division as numpy's `transition / totals` followed by
`res[res == np.inf] = 0; res = np.nan_to_num(res)` behaves on nonnegative
data: a zero denominator (the `inf` / `NaN` cases) yields `0`. -/
def cleanDiv (a b : α) : α :=
  if b = 0 then 0 else a / b

/-- `np.max(R, axis=1)` on one row: the maximum of `v 0, …, v (K-1)`
(`K ≥ 1`; numpy raises on an empty row, the `K = 0` value here is junk). -/
def rowMax (v : ℕ → α) (K : ℕ) : α :=
  (List.range K).foldl (fun m k => max m (v k)) (v 0)

/-- Scan step of `np.argmax`: keep the first index attaining the maximum,
replacing the current best only on a strict increase. -/
def argmaxAux (v : ℕ → α) : List ℕ → ℕ → ℕ
  | [], best => best
  | k :: rest, best => argmaxAux v rest (if v best < v k then k else best)

/-- `np.argmax(R, axis=1)` on one row: first index of the row maximum. -/
def argmaxIdx (v : ℕ → α) (K : ℕ) : ℕ :=
  argmaxAux v (List.range K) 0

/-- `assignment[i] = np.argmax(R, axis=1)[i]` in `_compute_transition_matrix`. -/
def assignmentOf (R : ℕ → ℕ → α) (K i : ℕ) : ℕ :=
  argmaxIdx (R i) K

/-- `highest_probability[i] = np.max(R, axis=1)[i]` in
`_compute_transition_matrix`. -/
def confidence (R : ℕ → ℕ → α) (K i : ℕ) : α :=
  rowMax (R i) K

/-- The inner accumulation `q` of `_compute_transition_matrix`:
`q = Σ_{i ∈ clusters[a], j ∈ clusters[b]} hp[i]·hp[j]·T[i,j]`, the sum over
the two clusters written with indicators over all cells `i, j < n`. -/
def qVal (T R : ℕ → ℕ → α) (n K a b : ℕ) : α :=
  ∑ i ∈ Finset.range n, ∑ j ∈ Finset.range n,
    if assignmentOf R K i = a ∧ assignmentOf R K j = b then
      confidence R K i * confidence R K j * T i j
    else 0

/-- `totals[a]` after the double loop of `_compute_transition_matrix`: the
loop runs `b` over `a, …, K-1` only, so the accumulated denominator is the
upper-triangular row total `Σ_{b=a}^{K-1} q(a,b)`. -/
def codeTotals (T R : ℕ → ℕ → α) (n K a : ℕ) : α :=
  ∑ b ∈ Finset.Ico a K, qVal T R n K a b

/-- The `transition` array of `_compute_transition_matrix` after the double
loop: entry `(a,b)` holds `q(a,b)` when `a ≤ b` and stays at its zero
initialization otherwise (the `K × K` shape is tracked by the callers). -/
def transitionUpper (T R : ℕ → ℕ → α) (n K a b : ℕ) : α :=
  if a ≤ b then qVal T R n K a b else 0

/-- `res = transition / totals` with numpy's `inf`/`NaN` results replaced by
`0` (`res[res == np.inf] = 0; res = np.nan_to_num(res)`): the
pre-symmetrization normalized matrix of `_compute_transition_matrix`. -/
def rawMatrix (T R : ℕ → ℕ → α) (n K a b : ℕ) : α :=
  cleanDiv (transitionUpper T R n K a b) (codeTotals T R n K a)

/-- The row sum `Σ_{b<K} res[a,b]` of the pre-symmetrization matrix. -/
def rawRowSum (T R : ℕ → ℕ → α) (n K a : ℕ) : α :=
  ∑ b ∈ Finset.range K, rawMatrix T R n K a b

/-- Return value of `_compute_transition_matrix`:
`res + res.T - np.diag(res.diagonal())`. -/
def compute_transition_matrix (T R : ℕ → ℕ → α) (n K a b : ℕ) : α :=
  rawMatrix T R n K a b + rawMatrix T R n K b a -
    (if a = b then rawMatrix T R n K a a else 0)

/-- Row total of `q(a,·)` over every cluster `b < K`, written from the
spec's words "total[a] = Σ_b q(a,b)" for comparison with `codeTotals`. -/
def specRowTotal (T R : ℕ → ℕ → α) (n K a : ℕ) : α :=
  ∑ b ∈ Finset.range K, qVal T R n K a b

/-! ### Definitions: Segment Likelihood Evaluator (`_calculate_segment_probability`) -/

/-- `np.log` followed by the cleanup
`L[L == inf] = 0; L[L == -inf] = 0; L = np.nan_to_num(L)` of
`_calculate_segment_probability`: `log 0 = -inf` and `log x = NaN` for
`x < 0` are both replaced by `0`.  (Mathlib's `Real.log` maps nonpositive
arguments to `log |x|`, so the guard is explicit.) -/
noncomputable def safeLog (x : ℝ) : ℝ :=
  if x ≤ 0 then 0 else Real.log x

/-- The `probability` list of `_calculate_segment_probability` once the
first entry exists: `acc` is the last element appended so far
(`probability[i-2]`), `prev` the previous order index (`orders[i-1]`), and
each step appends `acc + L[orders[i-1], orders[i]]`. -/
noncomputable def segProbAux (L : ℕ → ℕ → ℝ) (acc : ℝ) (prev : ℕ) : List ℕ → List ℝ
  | [] => [acc]
  | o :: rest => acc :: segProbAux L (acc + L prev o) o rest

/-- `_calculate_segment_probability(center_transition_matrix, orders)`:
takes the cleaned element-wise log of the matrix, starts from
`probability = [L[orders[0], orders[1]]]` and accumulates along consecutive
pairs.  The initial accesses `orders[0]`, `orders[1]` are out of bounds for
an ordering of length `< 2` (numpy raises `IndexError`), modelled by
`none`. -/
noncomputable def calculate_segment_probability (M : ℕ → ℕ → ℝ) : List ℕ → Option (List ℝ)
  | o0 :: o1 :: rest =>
      some (segProbAux (fun a b => safeLog (M a b)) (safeLog (M o0 o1)) o1 rest)
  | _ => none

/-! ### Definitions: concrete example inputs -/

/-- Concrete 2-cell, 2-cluster example over `ℚ`: transition matrix
`[[0,1],[1,0]]`. -/
def exT2 : ℕ → ℕ → ℚ := fun i j => if i = j then 0 else 1

/-- Concrete assignment matrix: the 2×2 identity (one cell per cluster,
confidence 1). -/
def exR2 : ℕ → ℕ → ℚ := fun i k => if i = k then 1 else 0

/-- The spec's 3-cluster example transition matrix `[[0,2,0],[2,0,1],[0,1,0]]`
over `ℝ`. -/
def exT3 : ℕ → ℕ → ℝ := fun i j =>
  if (i = 0 ∧ j = 1) ∨ (i = 1 ∧ j = 0) then 2
  else if (i = 1 ∧ j = 2) ∨ (i = 2 ∧ j = 1) then 1
  else 0

/-- The 3×3 identity assignment matrix (one cell per cluster, confidence 1)
over `ℝ`. -/
def exR3 : ℕ → ℕ → ℝ := fun i k => if i = k then 1 else 0

/-- The matrix `[[0,1,0],[1,0,1],[0,1,0]]` that the aggregator actually
produces on the spec's 3-cluster example. -/
def exM3 : ℕ → ℕ → ℝ := fun a b =>
  if (a = 0 ∧ b = 1) ∨ (a = 1 ∧ b = 0) ∨ (a = 1 ∧ b = 2) ∨ (a = 2 ∧ b = 1) then 1
  else 0

/-! ### Definitions: Cluster Tree Orienter (`construct_velocity_tree`, lines 117–127) -/

/-- One iteration of the orientation loop of `construct_velocity_tree`:
with `r = orders[i-1]`, `c = orders[i]`, forward likelihood
`pf = segment_p[i-1]` and reversed-order likelihood
`pr = segment_p_reversed[i-1]`.  If `pf >= pr` the code runs
`tree[r,c] = max(tree[r,c], tree[c,r]); tree[c,r] = 0`, otherwise the
symmetric pair of assignments; the later assignment wins when `r = c`. -/
def orientStep (tree : ℕ → ℕ → α) (r c : ℕ) (pf pr : α) : ℕ → ℕ → α :=
  if pr ≤ pf then
    fun a b =>
      if a = c ∧ b = r then 0
      else if a = r ∧ b = c then max (tree r c) (tree c r)
      else tree a b
  else
    fun a b =>
      if a = r ∧ b = c then 0
      else if a = c ∧ b = r then max (tree r c) (tree c r)
      else tree a b

/-- The orientation loop `for i in range(1, len(orders))` of
`construct_velocity_tree`, consuming the consecutive pairs of `orders`
together with the two likelihood sequences (in the caller both sequences
have length `len(orders) - 1`; on shorter sequences the source would raise
`IndexError`, and this model stops). -/
def orientTree (tree : ℕ → ℕ → α) : List ℕ → List α → List α → (ℕ → ℕ → α)
  | r :: c :: rest, pf :: pfs, pr :: prs =>
      orientTree (orientStep tree r c pf pr) (c :: rest) pfs prs
  | _, _, _ => tree

/-- The list of consecutive index pairs of a path. -/
def consecPairs (l : List ℕ) : List (ℕ × ℕ) :=
  l.zip l.tail

/-- Concrete 2-cluster undirected tree over `ℚ` with the single edge
`{0,1}` weighted on both sides. -/
def exTree2 : ℕ → ℕ → ℚ := fun a b =>
  if a = 0 ∧ b = 1 then 5 else if a = 1 ∧ b = 0 then 3 else 0

/-! ### Definitions: Per-Cell Graph Contractor (`remove_velocity_points`) -/

/-- Symmetric assignment pair `G[a][b] = w; G[b][a] = w` (the second
assignment wins on the shared cell when `a = b`).  The contractor only
adds and compares weights, so it is stated over any linear ordered
commutative ring. -/
def update2 {β : Type} [LinearOrderedCommRing β] (G : ℕ → ℕ → β) (a b : ℕ) (w : β) : ℕ → ℕ → β :=
  fun x y => if x = b ∧ y = a then w else if x = a ∧ y = b then w else G x y

/-- `nb_ids`: the indices `nb_id in range(len(G[0]))` with
`G[nodeid][nb_id] != 0`. -/
def neighborIds {β : Type} [LinearOrderedCommRing β] (G : ℕ → ℕ → β) (w nodeid : ℕ) : List ℕ :=
  (List.range w).filter (fun k => G nodeid k ≠ 0)

/-- The `min_val`/`min_ind` scan of `remove_velocity_points`: `min_val`
starts at `np.inf` (modelled by `none`) and is replaced whenever
`G[nodeid][i] != 0` and `G[nodeid][i] < min_val` (strict, so the first
minimum is kept). -/
def minScan {β : Type} [LinearOrderedCommRing β] (G : ℕ → ℕ → β) (nodeid : ℕ) : List ℕ → Option (ℕ × β) → Option (ℕ × β)
  | [], acc => acc
  | i :: rest, acc =>
      match acc with
      | none =>
          minScan G nodeid rest (if G nodeid i ≠ 0 then some (i, G nodeid i) else none)
      | some (mi, mv) =>
          minScan G nodeid rest
            (if G nodeid i ≠ 0 ∧ G nodeid i < mv then some (i, G nodeid i) else some (mi, mv))

/-- The merge loop `for i in nb_ids: if i != min_ind: ...` of
`remove_velocity_points`: each non-minimal neighbor `i` gets the symmetric
edge `G[i][min_ind] = G[min_ind][i] = G[nodeid][i] + min_val`, reading
`G[nodeid][i]` from the evolving matrix as the source does. -/
def contractLoop {β : Type} [LinearOrderedCommRing β] (nodeid min_ind : ℕ) (min_val : β) : List ℕ → (ℕ → ℕ → β) → (ℕ → ℕ → β)
  | [], G => G
  | i :: rest, G =>
      if i ≠ min_ind then
        contractLoop nodeid min_ind min_val rest (update2 G i min_ind (G nodeid i + min_val))
      else contractLoop nodeid min_ind min_val rest G

/-- The body of `remove_velocity_points` for one duplicate node `nodeid`
(matrix width `w = len(G[0])`).  With a single neighbor the edge to it is
zeroed; with several, the merge loop runs and then ONLY the edge to
`nb_ids[0]` is zeroed (`G[nodeid][nb_ids[0]] = 0; G[nb_ids[0]][nodeid] = 0`),
exactly as in the source.  A node with no neighbors makes the source raise
`IndexError` at `nb_ids[0]` (unreached for connected inputs, modelled as a
no-op), and an exhausted scan cannot happen with a nonempty neighbor
list. -/
def processNode {β : Type} [LinearOrderedCommRing β] (w : ℕ) (G : ℕ → ℕ → β) (nodeid : ℕ) : ℕ → ℕ → β :=
  match neighborIds G w nodeid with
  | [] => G
  | [k] => update2 G nodeid k 0
  | nb0 :: _ :: _ =>
      match minScan G nodeid (List.range w) none with
      | some (min_ind, min_val) =>
          update2 (contractLoop nodeid min_ind min_val (neighborIds G w nodeid) G) nodeid nb0 0
      | none => G

/-- `remove_velocity_points(G, n)`: the loop
`for nodeid in range(n, 2*n)` over the duplicate nodes, each iteration
mutating the matrix (width `2*n`). -/
def remove_velocity_points {β : Type} [LinearOrderedCommRing β] (G : ℕ → ℕ → β) (n : ℕ) : ℕ → ℕ → β :=
  (List.range n).foldl (fun H k => processNode (2 * n) H (n + k)) G

/-- Concrete 4-node tree over `ℚ` with `n = 2`: real nodes `0, 1`,
duplicates `2, 3`; edges `{0,2}` (weight 1), `{1,2}` (weight 2), `{0,3}`
(weight 5).  No duplicate is adjacent to a duplicate, and duplicate `2`
has two neighbors.  Integer weights keep the run kernel-decidable. -/
def exG4 : ℕ → ℕ → ℤ := fun x y =>
  if (x = 0 ∧ y = 2) ∨ (x = 2 ∧ y = 0) then 1
  else if (x = 1 ∧ y = 2) ∨ (x = 2 ∧ y = 1) then 2
  else if (x = 0 ∧ y = 3) ∨ (x = 3 ∧ y = 0) then 5
  else 0

/-! ### Definitions: Branch Direction Voter (`construct_velocity_tree_py`, lines 190–271) -/

/-- `pos_direct` for one branch: the vote loop `for bp in range(len(path))`
adds at most one vote per position.  The per-position geometric test of the
source (shortest-path lookup plus the angle comparison) is abstracted as
the boolean `vote`, because the source body is not executable as written
(it indexes the list with call syntax `path(bp)` and compares an arccos
vector against a scalar). -/
def countVotes (path : List ℕ) (vote : ℕ → Bool) : ℕ :=
  ((List.range path.length).filter vote).length

/-- `dG[u, v] = 1`. -/
def setEdge (dG : ℕ → ℕ → ℕ) (u v : ℕ) : ℕ → ℕ → ℕ :=
  fun a b => if a = u ∧ b = v then 1 else dG a b

/-- Consecutive directed edges written into `dG`. -/
def addEdges (dG : ℕ → ℕ → ℕ) (l : List (ℕ × ℕ)) : ℕ → ℕ → ℕ :=
  l.foldl (fun d e => setEdge d e.1 e.2) dG

/-- The per-branch finalization of `construct_velocity_tree_py`
(lines 248–271): `neg_direct = len(path) - pos_direct`; the log line reads
`path[0]` and `path[-1]` (an `IndexError` on an empty branch, modelled by
`Except.error`); then `if pos_direct > neg_direct` the branch adds forward
edges `dG[path[bp], path[bp+1]] = 1`, otherwise the reversed edges
`dG[path[bp+1], path[bp]] = 1`. -/
def orientBranch (dG : ℕ → ℕ → ℕ) (path : List ℕ) (vote : ℕ → Bool) :
    Except String (ℕ → ℕ → ℕ) :=
  match path with
  | [] => Except.error "IndexError: list index out of range"
  | _ :: _ =>
      let pos := countVotes path vote
      let neg := path.length - pos
      if neg < pos then Except.ok (addEdges dG (consecPairs path))
      else Except.ok (addEdges dG ((consecPairs path).map Prod.swap))

/-- One iteration of the vote loop (lines 193–246): its very first
statement `u = path(bp)` indexes the list with function-call syntax, so
every iteration raises `TypeError` before any vote is computed. -/
def voteLoopStep (path : List ℕ) (bp : ℕ) : Except String ℕ :=
  Except.error "TypeError: list object is not callable"

/-- The vote loop `for bp in range(len(path))` accumulating `pos_direct`,
with the error behavior of its body: it completes (with `pos_direct = 0`)
only when it has zero iterations, and raises on the first iteration of any
nonempty branch. -/
def voteLoop (path : List ℕ) : Except String ℕ :=
  (List.range path.length).foldlM
    (fun pos bp => (voteLoopStep path bp).map (fun v => pos + v)) 0

/-- The per-branch body of `construct_velocity_tree_py` (lines 190–271) as
control actually flows, error paths included: first the vote loop (which
raises `TypeError` on any nonempty branch at `u = path(bp)`), then the log
line, which reads `path[0]`/`path[-1]` (`IndexError` on an empty branch)
and concatenates strings with the integer tallies (`TypeError` otherwise),
all BEFORE the `if pos_direct > neg_direct` edge writes.  `orientBranch`
above models only the final tally-and-orient statements in isolation; here
no input ever reaches them, so the `dG` argument is never written. -/
def processBranch (dG : ℕ → ℕ → ℕ) (path : List ℕ) : Except String (ℕ → ℕ → ℕ) :=
  match voteLoop path with
  | Except.error e => Except.error e
  | Except.ok _ =>
      match path with
      | [] => Except.error "IndexError: list index out of range"
      | _ :: _ => Except.error "TypeError: can only concatenate str (not int) to str"

/-! ### Definitions: `calculate_angle` -/

/-- Euclidean norm `scipy.linalg.norm` of a `d`-vector. -/
noncomputable def vnorm {d : ℕ} (v : Fin d → ℝ) : ℝ :=
  Real.sqrt (∑ k, v k ^ 2)

/-- `calculate_angle(o, y, x)`: numpy's `norm_yo.T * norm_xo` is the
element-wise product of the two unit vectors (`.T` on a 1-D array is the
identity), so `np.arccos` applies coordinate-wise and the function returns
a vector of `d` per-coordinate angles. -/
noncomputable def calculate_angle {d : ℕ} (o y x : Fin d → ℝ) : Fin d → ℝ :=
  fun k =>
    Real.arccos (((y k - o k) / vnorm (fun j => y j - o j))
      * ((x k - o k) / vnorm (fun j => x j - o j)))

/-- The scalar angle between the two unit vectors, `arccos` of their dot
product — written from the spec's words (the usual angle between vectors),
for comparison with `calculate_angle`. -/
noncomputable def dotAngle {d : ℕ} (o y x : Fin d → ℝ) : ℝ :=
  Real.arccos (∑ k, ((y k - o k) / vnorm (fun j => y j - o j))
    * ((x k - o k) / vnorm (fun j => x j - o j)))

/-- Concrete origin `(0,0)`. -/
def exO2 : Fin 2 → ℝ := ![0, 0]

/-- Concrete endpoint `(1,0)` of the first vector. -/
def exY2 : Fin 2 → ℝ := ![1, 0]

/-- Concrete endpoint `(1,0)` of the second vector. -/
def exX2 : Fin 2 → ℝ := ![1, 0]

/-! ### Theorems: helper lemmas -/

/-- The filtered range `b ∈ [a, K)` is exactly the set the `b`-loop of
`_compute_transition_matrix` runs over. -/
theorem range_filter_le_eq_Ico (a K : ℕ) :
    (Finset.range K).filter (fun b => a ≤ b) = Finset.Ico a K := by
  ext b
  simp [Finset.mem_filter, Finset.mem_range, Finset.mem_Ico, and_comm]

/-- Folding `max` over a list never goes below the accumulator. -/
theorem le_foldl_max (v : ℕ → α) (l : List ℕ) (acc : α) :
    acc ≤ l.foldl (fun m k => max m (v k)) acc := by
  induction l generalizing acc with
  | nil => exact le_refl acc
  | cons k rest ih => exact le_trans (le_max_left acc (v k)) (ih (max acc (v k)))

/-- With a nonnegative assignment matrix every confidence is nonnegative. -/
theorem confidence_nonneg (R : ℕ → ℕ → α) (K i : ℕ) (hR : ∀ i k, 0 ≤ R i k) :
    0 ≤ confidence R K i :=
  le_trans (hR i 0) (le_foldl_max (R i) (List.range K) (R i 0))

/-- With nonnegative inputs every accumulated `q(a,b)` is nonnegative. -/
theorem qVal_nonneg (T R : ℕ → ℕ → α) (n K a b : ℕ)
    (hT : ∀ i j, 0 ≤ T i j) (hR : ∀ i k, 0 ≤ R i k) :
    0 ≤ qVal T R n K a b := by
  refine Finset.sum_nonneg fun i _ => Finset.sum_nonneg fun j _ => ?_
  by_cases h : assignmentOf R K i = a ∧ assignmentOf R K j = b
  · simp only [h, and_self, if_true]
    exact mul_nonneg (mul_nonneg (confidence_nonneg R K i hR) (confidence_nonneg R K j hR))
      (hT i j)
  · simp [h]

/-- With nonnegative inputs the loop's accumulated denominator is
nonnegative. -/
theorem codeTotals_nonneg (T R : ℕ → ℕ → α) (n K a : ℕ)
    (hT : ∀ i j, 0 ≤ T i j) (hR : ∀ i k, 0 ≤ R i k) :
    0 ≤ codeTotals T R n K a :=
  Finset.sum_nonneg fun b _ => qVal_nonneg T R n K a b hT hR

/-- With nonnegative inputs every pre-symmetrization entry is nonnegative. -/
theorem rawMatrix_nonneg (T R : ℕ → ℕ → α) (n K a b : ℕ)
    (hT : ∀ i j, 0 ≤ T i j) (hR : ∀ i k, 0 ≤ R i k) :
    0 ≤ rawMatrix T R n K a b := by
  unfold rawMatrix cleanDiv
  by_cases h : codeTotals T R n K a = 0
  · simp [h]
  · simp only [h, if_false]
    refine div_nonneg ?_ (codeTotals_nonneg T R n K a hT hR)
    unfold transitionUpper
    by_cases hab : a ≤ b
    · simpa [hab] using qVal_nonneg T R n K a b hT hR
    · simp [hab]

/-- Length of the accumulation list built by `segProbAux`. -/
theorem segProbAux_length (L : ℕ → ℕ → ℝ) (l : List ℕ) (acc : ℝ) (prev : ℕ) :
    (segProbAux L acc prev l).length = l.length + 1 := by
  induction l generalizing acc prev with
  | nil => rfl
  | cons o rest ih => simp [segProbAux, ih]

/-! ### Theorems: C2 (aggregator symmetry) -/

/-- C2: for every nonnegative cell-level transition matrix and every
assignment matrix `R`, the output of the Cluster Transition Aggregator is
symmetric: `M[a,b] = M[b,a]` for all cluster indices `a`, `b`. -/
theorem aggregator_output_symmetric (T R : ℕ → ℕ → α) (n K : ℕ)
    (hT : ∀ i j, 0 ≤ T i j) (a b : ℕ) :
    compute_transition_matrix T R n K a b = compute_transition_matrix T R n K b a := by
  clear hT
  unfold compute_transition_matrix
  by_cases h : a = b
  · subst h; ring
  · have h' : ¬ b = a := fun hba => h hba.symm
    simp [h, h']
    ring

/-- Witness for C2: the symmetry theorem applied at a concrete nonnegative
input over `ℚ`. -/
theorem aggregator_output_symmetric_witness :
    compute_transition_matrix exT2 exR2 2 2 0 1 = compute_transition_matrix exT2 exR2 2 2 1 0 :=
  aggregator_output_symmetric exT2 exR2 2 2
    (by intro i j; unfold exT2; by_cases h : i = j <;> simp [h]) 0 1

/-! ### Theorems: C4 (normalization denominator, corrected) -/

/-- C4, counterexample: at `T = [[0,1],[1,0]]` with the identity assignment,
the loop's denominator for cluster `1` is `0`, not the full row total
`Σ_b q(1,b) = 1`, and row `1` of the normalized pre-symmetrization matrix
sums to `0` although the full row total is positive. -/
theorem normalization_denominator_counterexample :
    codeTotals exT2 exR2 2 2 1 = 0
  ∧ specRowTotal exT2 exR2 2 2 1 = 1
  ∧ ¬ codeTotals exT2 exR2 2 2 1 = specRowTotal exT2 exR2 2 2 1
  ∧ 0 < specRowTotal exT2 exR2 2 2 1
  ∧ rawRowSum exT2 exR2 2 2 1 = 0
  ∧ ¬ rawRowSum exT2 exR2 2 2 1 = 1 := by
  norm_num [codeTotals, specRowTotal, rawRowSum, rawMatrix, transitionUpper, cleanDiv,
    qVal, assignmentOf, argmaxIdx, argmaxAux, confidence, rowMax, exT2, exR2,
    Finset.sum_range_succ, show List.range 2 = [0, 1] from rfl,
    show Finset.Ico 1 2 = ({1} : Finset ℕ) from rfl]

/-- C4, amended: the normalization denominator for cluster `a` is the
upper-triangular total `Σ_{b=a}^{K-1} q(a,b)` accumulated by the loop; each
raw entry with `a ≤ b` is `q(a,b)` divided by that total (zero-division
replaced by `0`), entries with `b < a` stay `0`, and row `a` of the
pre-symmetrization matrix sums to `1` whenever that denominator is
positive. -/
theorem raw_normalization_amended (T R : ℕ → ℕ → α) (n K a : ℕ) :
    (∀ b, a ≤ b → rawMatrix T R n K a b = cleanDiv (qVal T R n K a b) (codeTotals T R n K a))
  ∧ (∀ b, b < a → rawMatrix T R n K a b = 0)
  ∧ (0 < codeTotals T R n K a → rawRowSum T R n K a = 1) := by
  refine ⟨fun b hb => ?_, fun b hb => ?_, fun hpos => ?_⟩
  · simp [rawMatrix, transitionUpper, hb]
  · simp [rawMatrix, transitionUpper, cleanDiv, Nat.not_le.mpr hb]
  · have hne : codeTotals T R n K a ≠ 0 := ne_of_gt hpos
    unfold rawRowSum rawMatrix cleanDiv
    simp only [hne, if_false]
    rw [← Finset.sum_div]
    have hsum : ∑ b ∈ Finset.range K, transitionUpper T R n K a b
        = codeTotals T R n K a := by
      unfold transitionUpper codeTotals
      rw [← range_filter_le_eq_Ico a K, Finset.sum_filter]
    rw [hsum, div_self hne]

/-- Witness for C4's amended theorem: at the concrete input, the raw entry
below the diagonal is `0` and row `0` (whose denominator is `1 > 0`) sums
to `1`. -/
theorem raw_normalization_amended_witness :
    rawMatrix exT2 exR2 2 2 1 0 = 0 ∧ rawRowSum exT2 exR2 2 2 0 = 1 :=
  ⟨(raw_normalization_amended exT2 exR2 2 2 1).2.1 0 (by norm_num),
   (raw_normalization_amended exT2 exR2 2 2 0).2.2 (by
      norm_num [codeTotals, qVal, assignmentOf, argmaxIdx, argmaxAux, confidence, rowMax,
        exT2, exR2, Finset.sum_range_succ, show List.range 2 = [0, 1] from rfl,
        show Finset.Ico 0 2 = ({0, 1} : Finset ℕ) from rfl, Finset.sum_insert])⟩

/-! ### Theorems: C5 (3-cluster worked example, corrected) -/

/-- In the 3-cluster example each cell is assigned to its own cluster. -/
theorem exR3_assignment :
    assignmentOf exR3 3 0 = 0 ∧ assignmentOf exR3 3 1 = 1 ∧ assignmentOf exR3 3 2 = 2 := by
  refine ⟨?_, ?_, ?_⟩ <;>
    norm_num [assignmentOf, argmaxIdx, argmaxAux, exR3, show List.range 3 = [0, 1, 2] from rfl]

/-- In the 3-cluster example each assignment confidence is `1`. -/
theorem exR3_confidence :
    confidence exR3 3 0 = 1 ∧ confidence exR3 3 1 = 1 ∧ confidence exR3 3 2 = 1 := by
  refine ⟨?_, ?_, ?_⟩ <;>
    norm_num [confidence, rowMax, exR3, show List.range 3 = [0, 1, 2] from rfl]

/-- With hard singleton clusters and confidence `1`, each accumulated
`q(a,b)` in the 3-cluster example is the input entry `T[a,b]`. -/
theorem exQ3 (a b : ℕ) (ha : a < 3) (hb : b < 3) :
    qVal exT3 exR3 3 3 a b = exT3 a b := by
  have h0 := exR3_assignment
  have h1 := exR3_confidence
  interval_cases a <;> interval_cases b <;>
    norm_num [qVal, Finset.sum_range_succ, h0.1, h0.2.1, h0.2.2, h1.1, h1.2.1, h1.2.2, exT3]

/-- The loop's accumulated row totals in the 3-cluster example are
`2, 1, 0` (the `b`-loop only covers `b ≥ a`). -/
theorem exTot3 :
    codeTotals exT3 exR3 3 3 0 = 2 ∧ codeTotals exT3 exR3 3 3 1 = 1
  ∧ codeTotals exT3 exR3 3 3 2 = 0 := by
  have q00 := exQ3 0 0 (by norm_num) (by norm_num)
  have q01 := exQ3 0 1 (by norm_num) (by norm_num)
  have q02 := exQ3 0 2 (by norm_num) (by norm_num)
  have q11 := exQ3 1 1 (by norm_num) (by norm_num)
  have q12 := exQ3 1 2 (by norm_num) (by norm_num)
  have q22 := exQ3 2 2 (by norm_num) (by norm_num)
  refine ⟨?_, ?_, ?_⟩ <;>
    norm_num [codeTotals, show Finset.Ico 0 3 = ({0, 1, 2} : Finset ℕ) from rfl,
      show Finset.Ico 1 3 = ({1, 2} : Finset ℕ) from rfl,
      show Finset.Ico 2 3 = ({2} : Finset ℕ) from rfl,
      Finset.sum_insert, q00, q01, q02, q11, q12, q22, exT3]

/-- Pre-symmetrization entries of the 3-cluster example:
`res = [[0,1,0],[0,0,1],[0,0,0]]`. -/
theorem exRaw3 (a b : ℕ) (ha : a < 3) (hb : b < 3) :
    rawMatrix exT3 exR3 3 3 a b
      = (if (a = 0 ∧ b = 1) ∨ (a = 1 ∧ b = 2) then 1 else 0) := by
  have t := exTot3
  have q00 := exQ3 0 0 (by norm_num) (by norm_num)
  have q01 := exQ3 0 1 (by norm_num) (by norm_num)
  have q02 := exQ3 0 2 (by norm_num) (by norm_num)
  have q11 := exQ3 1 1 (by norm_num) (by norm_num)
  have q12 := exQ3 1 2 (by norm_num) (by norm_num)
  have q22 := exQ3 2 2 (by norm_num) (by norm_num)
  interval_cases a <;> interval_cases b <;>
    norm_num [rawMatrix, transitionUpper, cleanDiv, t.1, t.2.1, t.2.2,
      q00, q01, q02, q11, q12, q22, exT3]

/-- The collapsed matrix of the 3-cluster example is
`[[0,1,0],[1,0,1],[0,1,0]]`. -/
theorem exM3_entries (a b : ℕ) (ha : a < 3) (hb : b < 3) :
    compute_transition_matrix exT3 exR3 3 3 a b = exM3 a b := by
  have r00 := exRaw3 0 0 (by norm_num) (by norm_num)
  have r01 := exRaw3 0 1 (by norm_num) (by norm_num)
  have r02 := exRaw3 0 2 (by norm_num) (by norm_num)
  have r10 := exRaw3 1 0 (by norm_num) (by norm_num)
  have r11 := exRaw3 1 1 (by norm_num) (by norm_num)
  have r12 := exRaw3 1 2 (by norm_num) (by norm_num)
  have r20 := exRaw3 2 0 (by norm_num) (by norm_num)
  have r21 := exRaw3 2 1 (by norm_num) (by norm_num)
  have r22 := exRaw3 2 2 (by norm_num) (by norm_num)
  interval_cases a <;> interval_cases b <;>
    norm_num [compute_transition_matrix, r00, r01, r02, r10, r11, r12, r20, r21, r22, exM3]

/-- The forward segment likelihood of the 3-cluster example along
`[0,1,2]` is `[0, 0]`. -/
theorem exSeg3 :
    calculate_segment_probability (compute_transition_matrix exT3 exR3 3 3) [0, 1, 2]
      = some [0, 0] := by
  have h01 : compute_transition_matrix exT3 exR3 3 3 0 1 = 1 := by
    rw [exM3_entries 0 1 (by norm_num) (by norm_num)]; norm_num [exM3]
  have h12 : compute_transition_matrix exT3 exR3 3 3 1 2 = 1 := by
    rw [exM3_entries 1 2 (by norm_num) (by norm_num)]; norm_num [exM3]
  simp only [calculate_segment_probability, segProbAux, h01, h12]
  norm_num [safeLog, Real.log_one]

/-- C5, counterexample: on the spec's 3-cluster example the loop's row
totals are `2, 1, 0` (not `2, 3, 1`), the collapsed matrix has entry
`M[0,1] = 1 ≠ 2` so it is not the input matrix, and the forward segment
likelihood along `[0,1,2]` is `[0, 0]`, not `[log 2, log 2 + log 1]`. -/
theorem example3_collapse_counterexample :
    codeTotals exT3 exR3 3 3 1 = 1
  ∧ ¬ codeTotals exT3 exR3 3 3 1 = 3
  ∧ compute_transition_matrix exT3 exR3 3 3 0 1 = 1
  ∧ ¬ compute_transition_matrix exT3 exR3 3 3 0 1 = exT3 0 1
  ∧ calculate_segment_probability (compute_transition_matrix exT3 exR3 3 3) [0, 1, 2]
      = some [0, 0]
  ∧ ¬ calculate_segment_probability (compute_transition_matrix exT3 exR3 3 3) [0, 1, 2]
      = some [Real.log 2, Real.log 2 + Real.log 1] := by
  have htot := exTot3.2.1
  have h01 : compute_transition_matrix exT3 exR3 3 3 0 1 = 1 := by
    rw [exM3_entries 0 1 (by norm_num) (by norm_num)]; norm_num [exM3]
  have hseg := exSeg3
  have hlog2 : (0 : ℝ) < Real.log 2 := Real.log_pos (by norm_num)
  refine ⟨htot, by rw [htot]; norm_num, h01, ?_, hseg, ?_⟩
  · rw [h01]; unfold exT3; norm_num
  · rw [hseg]
    intro hcontra
    have h0 : (0 : ℝ) = Real.log 2 := by
      have h := Option.some.inj hcontra
      exact (List.cons.inj h).1
    exact absurd h0.symm (ne_of_gt hlog2)

/-- C5, amended: on the spec's 3-cluster example the aggregator's loop
accumulates row totals `2, 1, 0`, the collapsed matrix is
`[[0,1,0],[1,0,1],[0,1,0]]`, and the Segment Likelihood Evaluator on the
ordering `[0,1,2]` returns `[log 1, log 1 + log 1] = [0, 0]`. -/
theorem example3_collapse_amended :
    (codeTotals exT3 exR3 3 3 0 = 2 ∧ codeTotals exT3 exR3 3 3 1 = 1
      ∧ codeTotals exT3 exR3 3 3 2 = 0)
  ∧ (∀ a b, a < 3 → b < 3 → compute_transition_matrix exT3 exR3 3 3 a b = exM3 a b)
  ∧ calculate_segment_probability (compute_transition_matrix exT3 exR3 3 3) [0, 1, 2]
      = some [Real.log 1, Real.log 1 + Real.log 1] := by
  refine ⟨exTot3, fun a b ha hb => exM3_entries a b ha hb, ?_⟩
  rw [exSeg3, Real.log_one]
  norm_num

/-- Witness for C5's amended theorem: the collapsed-matrix description
applied at the concrete in-range indices `(0,1)`. -/
theorem example3_collapse_amended_witness :
    compute_transition_matrix exT3 exR3 3 3 0 1 = exM3 0 1 :=
  example3_collapse_amended.2.1 0 1 (by norm_num) (by norm_num)

/-! ### Theorems: C9 (evaluator length / missing precondition) -/

/-- C9: the Segment Likelihood Evaluator returns a sequence of length
`n - 1` for every ordering of length `n ≥ 2`, and produces no result (its
initial access `orders[1]` is out of bounds) for orderings of length 0
or 1. -/
theorem segment_probability_length (M : ℕ → ℕ → ℝ) (orders : List ℕ) :
    (2 ≤ orders.length →
      (calculate_segment_probability M orders).map List.length = some (orders.length - 1))
  ∧ (orders.length < 2 → calculate_segment_probability M orders = none) := by
  match orders with
  | [] => exact ⟨fun h => absurd h (by norm_num), fun _ => rfl⟩
  | [o0] => exact ⟨fun h => absurd h (by norm_num), fun _ => rfl⟩
  | o0 :: o1 :: rest =>
      refine ⟨fun _ => ?_, fun h => absurd h (by simp)⟩
      simp [calculate_segment_probability, segProbAux_length]

/-- Witness for C9: at a concrete matrix, the evaluator yields two segment
values on the length-3 ordering `[0,1,2]` and no result on `[0]`. -/
theorem segment_probability_length_witness :
    (calculate_segment_probability (fun _ _ => (1 : ℝ)) [0, 1, 2]).map List.length = some 2
  ∧ calculate_segment_probability (fun _ _ => (1 : ℝ)) [0] = none :=
  ⟨(segment_probability_length (fun _ _ => (1 : ℝ)) [0, 1, 2]).1 (by norm_num),
   (segment_probability_length (fun _ _ => (1 : ℝ)) [0]).2 (by norm_num)⟩

/-! ### Theorems: C1 (graph contractor, code bug) -/

/-- C1: evaluation of `remove_velocity_points` at the 4-node tree `exG4`
(`n = 2`, no duplicate adjacent to a duplicate).  The merge loop correctly
creates the contracted edge `{0,1}` with weight `3 = 2 + 1`, and the
degree-1 duplicate `3` is fully detached, but the code only zeroes
duplicate `2`'s edge to its FIRST neighbor `nb_ids[0] = 0`, so the edge
`{2,1}` survives with weight `2` — contradicting the claim (and the
function's own docstring) that every edge incident to a duplicate is
removed. -/
theorem remove_velocity_points_keeps_duplicate_edge :
    remove_velocity_points exG4 2 2 1 = 2
  ∧ remove_velocity_points exG4 2 1 2 = 2
  ∧ ¬ remove_velocity_points exG4 2 2 1 = 0
  ∧ remove_velocity_points exG4 2 0 1 = 3
  ∧ remove_velocity_points exG4 2 1 0 = 3
  ∧ remove_velocity_points exG4 2 2 0 = 0
  ∧ remove_velocity_points exG4 2 0 2 = 0
  ∧ remove_velocity_points exG4 2 3 0 = 0
  ∧ remove_velocity_points exG4 2 0 3 = 0 := by
  decide

/-! ### Theorems: C3 (cluster tree orienter) -/

/-- A step of the orientation loop leaves every entry outside its own pair
of cells unchanged. -/
theorem orientStep_other (tree : ℕ → ℕ → α) (r c : ℕ) (pf pr : α) (u v : ℕ)
    (h1 : ¬(u = r ∧ v = c)) (h2 : ¬(u = c ∧ v = r)) :
    orientStep tree r c pf pr u v = tree u v := by
  unfold orientStep
  split <;> simp [h1, h2]

/-- Processing the pair `(r, c)` itself (with `r ≠ c` and at least one of
the two entries positive) leaves exactly one of the two entries positive
and the other zero. -/
theorem orientStep_same (tree : ℕ → ℕ → α) (r c : ℕ) (pf pr : α) (hrc : r ≠ c)
    (hpos : 0 < tree r c ∨ 0 < tree c r) :
    (0 < orientStep tree r c pf pr r c ∧ orientStep tree r c pf pr c r = 0)
  ∨ (orientStep tree r c pf pr r c = 0 ∧ 0 < orientStep tree r c pf pr c r) := by
  have hcr : ¬ c = r := fun h => hrc h.symm
  have hmax : 0 < max (tree r c) (tree c r) := by
    rcases hpos with h | h
    · exact lt_max_of_lt_left h
    · exact lt_max_of_lt_right h
  unfold orientStep
  split
  · left
    constructor
    · simpa [hrc, hcr] using hmax
    · simp [hrc, hcr]
  · right
    constructor
    · simp [hrc, hcr]
    · simpa [hrc, hcr] using hmax

/-- Once a pair of cells holds exactly one positive direction, any further
step of the loop (on this pair or any other) keeps exactly one positive
direction. -/
theorem orientStep_preserves_done (tree : ℕ → ℕ → α) (r c : ℕ) (pf pr : α) (u v : ℕ)
    (huv : u ≠ v)
    (h : (0 < tree u v ∧ tree v u = 0) ∨ (tree u v = 0 ∧ 0 < tree v u)) :
    (0 < orientStep tree r c pf pr u v ∧ orientStep tree r c pf pr v u = 0)
  ∨ (orientStep tree r c pf pr u v = 0 ∧ 0 < orientStep tree r c pf pr v u) := by
  by_cases hsame : (r = u ∧ c = v) ∨ (r = v ∧ c = u)
  · rcases hsame with ⟨hr, hc⟩ | ⟨hr, hc⟩
    · subst hr; subst hc
      refine orientStep_same tree r c pf pr huv ?_
      rcases h with ⟨h1, _⟩ | ⟨_, h2⟩
      · exact Or.inl h1
      · exact Or.inr h2
    · subst hr; subst hc
      have hrc : r ≠ c := fun hh => huv hh.symm
      have step := orientStep_same tree r c pf pr hrc (by
        rcases h with ⟨h1, _⟩ | ⟨_, h2⟩
        · exact Or.inr h1
        · exact Or.inl h2)
      rcases step with ⟨s1, s2⟩ | ⟨s1, s2⟩
      · exact Or.inr ⟨s2, s1⟩
      · exact Or.inl ⟨s2, s1⟩
  · push_neg at hsame
    have e1 : orientStep tree r c pf pr u v = tree u v := by
      refine orientStep_other tree r c pf pr u v ?_ ?_
      · rintro ⟨rfl, rfl⟩; exact (hsame.1 rfl) rfl
      · rintro ⟨rfl, rfl⟩; exact (hsame.2 rfl) rfl
    have e2 : orientStep tree r c pf pr v u = tree v u := by
      refine orientStep_other tree r c pf pr v u ?_ ?_
      · rintro ⟨rfl, rfl⟩; exact (hsame.2 rfl) rfl
      · rintro ⟨rfl, rfl⟩; exact (hsame.1 rfl) rfl
    rw [e1, e2]
    exact h

/-- Main loop invariant for the orienter: starting from a pair with
nonnegative entries at least one of which is positive, if the remaining
consecutive pairs still contain the pair (in either order), or the pair has
already been processed, then at the end exactly one direction is
positive. -/
theorem orientTree_covers (u v : ℕ) (huv : u ≠ v) :
    ∀ (p : List α) (orders : List ℕ) (prev : List α) (tree : ℕ → ℕ → α),
      p.length + 1 = orders.length → prev.length = p.length →
      (((0 ≤ tree u v ∧ 0 ≤ tree v u ∧ (0 < tree u v ∨ 0 < tree v u)) ∧
          ((u, v) ∈ consecPairs orders ∨ (v, u) ∈ consecPairs orders))
        ∨ ((0 < tree u v ∧ tree v u = 0) ∨ (tree u v = 0 ∧ 0 < tree v u))) →
      ((0 < orientTree tree orders p prev u v ∧ orientTree tree orders p prev v u = 0)
        ∨ (orientTree tree orders p prev u v = 0 ∧ 0 < orientTree tree orders p prev v u)) := by
  intro p
  induction p with
  | nil =>
      intro orders prev tree hlen _ hstate
      obtain ⟨o, rfl⟩ : ∃ o, orders = [o] := by
        cases orders with
        | nil => simp at hlen
        | cons a t =>
            cases t with
            | nil => exact ⟨a, rfl⟩
            | cons b t2 => simp at hlen
      have hnone : ¬ ((u, v) ∈ consecPairs [o] ∨ (v, u) ∈ consecPairs [o]) := by
        simp [consecPairs]
      rcases hstate with ⟨_, hmem⟩ | hdone
      · exact absurd hmem hnone
      · simpa [orientTree] using hdone
  | cons pf pfs ih =>
      intro orders prev tree hlen hprev hstate
      obtain ⟨r, c, rest, rfl⟩ : ∃ r c rest, orders = r :: c :: rest := by
        cases orders with
        | nil => simp at hlen
        | cons a t =>
            cases t with
            | nil => simp at hlen
            | cons b t2 => exact ⟨a, b, t2, rfl⟩
      obtain ⟨prh, prt, rfl⟩ : ∃ prh prt, prev = prh :: prt := by
        cases prev with
        | nil => simp at hprev
        | cons x xs => exact ⟨x, xs, rfl⟩
      have hstep : orientTree tree (r :: c :: rest) (pf :: pfs) (prh :: prt)
          = orientTree (orientStep tree r c pf prh) (c :: rest) pfs prt := rfl
      rw [hstep]
      have hlen' : pfs.length + 1 = (c :: rest).length := by
        simpa using Nat.succ_injective (by simpa using hlen)
      have hprev' : prt.length = pfs.length := by simpa using hprev
      refine ih (c :: rest) prt (orientStep tree r c pf prh) hlen' hprev' ?_
      rcases hstate with ⟨hinv, hmem⟩ | hdone
      · by_cases hsame : (r = u ∧ c = v) ∨ (r = v ∧ c = u)
        · right
          rcases hsame with ⟨hr, hc⟩ | ⟨hr, hc⟩
          · subst hr; subst hc
            exact orientStep_same tree r c pf prh huv hinv.2.2
          · subst hr; subst hc
            have hrc : r ≠ c := fun hh => huv hh.symm
            have step := orientStep_same tree r c pf prh hrc (by
              rcases hinv.2.2 with h1 | h2
              · exact Or.inr h1
              · exact Or.inl h2)
            rcases step with ⟨s1, s2⟩ | ⟨s1, s2⟩
            · exact Or.inr ⟨s2, s1⟩
            · exact Or.inl ⟨s2, s1⟩
        · left
          push_neg at hsame
          have e1 : orientStep tree r c pf prh u v = tree u v := by
            refine orientStep_other tree r c pf prh u v ?_ ?_
            · rintro ⟨rfl, rfl⟩; exact (hsame.1 rfl) rfl
            · rintro ⟨rfl, rfl⟩; exact (hsame.2 rfl) rfl
          have e2 : orientStep tree r c pf prh v u = tree v u := by
            refine orientStep_other tree r c pf prh v u ?_ ?_
            · rintro ⟨rfl, rfl⟩; exact (hsame.2 rfl) rfl
            · rintro ⟨rfl, rfl⟩; exact (hsame.1 rfl) rfl
          refine ⟨by rw [e1, e2]; exact hinv, ?_⟩
          have hhead : consecPairs (r :: c :: rest) = (r, c) :: consecPairs (c :: rest) := rfl
          rcases hmem with hm | hm
          · rw [hhead] at hm
            rcases List.mem_cons.mp hm with heq | ht
            · exfalso
              have : r = u ∧ c = v := by
                have h1 := congrArg Prod.fst heq
                have h2 := congrArg Prod.snd heq
                exact ⟨h1.symm, h2.symm⟩
              exact (hsame.1 this.1) this.2
            · exact Or.inl ht
          · rw [hhead] at hm
            rcases List.mem_cons.mp hm with heq | ht
            · exfalso
              have : r = v ∧ c = u := by
                have h1 := congrArg Prod.fst heq
                have h2 := congrArg Prod.snd heq
                exact ⟨h1.symm, h2.symm⟩
              exact (hsame.2 this.1) this.2
            · exact Or.inr ht
      · exact Or.inr (orientStep_preserves_done tree r c pf prh u v huv hdone)

/-- C3: each loop iteration with `r = order[i-1]`, `c = order[i]` keeps
the forward direction (`tree[r,c] := max(tree[r,c], tree[c,r])`,
`tree[c,r] := 0`) exactly when `p[i-1] ≥ p_rev[i-1]` (ties forward) and
orients `c → r` symmetrically otherwise; consequently, over likelihood
sequences of matching length and an ordering whose consecutive pairs cover
a tree edge `{u,v}` (nonnegative weights, at least one side positive),
exactly one direction of that edge is nonzero at the end. -/
theorem orienter_directs_each_edge :
    (∀ (tree : ℕ → ℕ → α) (r c : ℕ) (pf pr : α), r ≠ c →
      ((pr ≤ pf →
          orientStep tree r c pf pr r c = max (tree r c) (tree c r)
        ∧ orientStep tree r c pf pr c r = 0)
      ∧ (pf < pr →
          orientStep tree r c pf pr c r = max (tree r c) (tree c r)
        ∧ orientStep tree r c pf pr r c = 0)))
  ∧ (∀ (tree : ℕ → ℕ → α) (orders : List ℕ) (p prev : List α) (u v : ℕ),
      p.length + 1 = orders.length → prev.length = p.length →
      u ≠ v → 0 ≤ tree u v → 0 ≤ tree v u → (0 < tree u v ∨ 0 < tree v u) →
      ((u, v) ∈ consecPairs orders ∨ (v, u) ∈ consecPairs orders) →
      ((orientTree tree orders p prev u v ≠ 0 ∧ orientTree tree orders p prev v u = 0)
        ∨ (orientTree tree orders p prev u v = 0 ∧ orientTree tree orders p prev v u ≠ 0))) := by
  constructor
  · intro tree r c pf pr hrc
    have hcr : ¬ c = r := fun h => hrc h.symm
    constructor
    · intro hle
      unfold orientStep
      rw [if_pos hle]
      constructor
      · simp [hrc, hcr]
      · simp [hrc, hcr]
    · intro hlt
      unfold orientStep
      rw [if_neg (not_le.mpr hlt)]
      constructor
      · simp [hrc, hcr]
      · simp [hrc, hcr]
  · intro tree orders p prev u v hlen hprev huv h1 h2 hpos hmem
    have res := orientTree_covers u v huv p orders prev tree hlen hprev
      (Or.inl ⟨⟨h1, h2, hpos⟩, hmem⟩)
    rcases res with ⟨a, b⟩ | ⟨a, b⟩
    · exact Or.inl ⟨ne_of_gt a, b⟩
    · exact Or.inr ⟨a, ne_of_gt b⟩

/-- Witness for C3: the orienter applied to the single-edge tree `exTree2`
with ordering `[0,1]`, forward likelihood `[1]` and reversed likelihood
`[0]` leaves exactly one direction of the edge `{0,1}` nonzero. -/
theorem orienter_directs_each_edge_witness :
    (orientTree exTree2 [0, 1] [(1 : ℚ)] [0] 0 1 ≠ 0
      ∧ orientTree exTree2 [0, 1] [(1 : ℚ)] [0] 1 0 = 0)
  ∨ (orientTree exTree2 [0, 1] [(1 : ℚ)] [0] 0 1 = 0
      ∧ orientTree exTree2 [0, 1] [(1 : ℚ)] [0] 1 0 ≠ 0) :=
  orienter_directs_each_edge.2 exTree2 [0, 1] [1] [0] 0 1 rfl rfl
    (by decide) (by norm_num [exTree2]) (by norm_num [exTree2])
    (Or.inl (by norm_num [exTree2])) (Or.inl (by simp [consecPairs]))

/-! ### Theorems: C7 and C8 (branch direction voter, code bugs) -/

/-- C7: the Branch Direction Voter never computes a vote tally and never
orients a branch: on the branch `[0,1]` — as on every nonempty branch —
the vote loop's first statement `u = path(bp)` raises `TypeError`, the
empty branch raises `IndexError` in the subsequent log line, and no input
ever reaches the `if pos_direct > neg_direct` edge writes, so the claimed
`pos_direct + neg_direct` tally identity and the majority rule with its
tie-break describe intended behavior the code cannot execute. -/
theorem branch_vote_loop_raises :
    processBranch (fun _ _ => 0) [0, 1]
      = Except.error "TypeError: list object is not callable"
  ∧ processBranch (fun _ _ => 0) []
      = Except.error "IndexError: list index out of range"
  ∧ ¬ (∃ d, processBranch (fun _ _ => 0) [0, 1] = Except.ok d) := by
  refine ⟨rfl, rfl, ?_⟩
  rintro ⟨d, h⟩
  rw [show processBranch (fun _ _ => 0) [0, 1]
      = Except.error "TypeError: list object is not callable" from rfl] at h
  exact Except.noConfusion h

/-- C8: on an empty branch the per-branch code is NOT a no-op — after the
(empty) vote loop it formats a log line that reads `path[0]` and
`path[-1]`, which raises `IndexError` on an empty list, so the branch
fails instead of being skipped.  (A singleton branch likewise fails
earlier: the vote loop's very first statement indexes the list with call
syntax, `u = path(bp)`, a `TypeError`.) -/
theorem empty_branch_raises :
    orientBranch (fun _ _ => 0) [] (fun _ => false)
      = Except.error "IndexError: list index out of range" := rfl

/-! ### Theorems: C6 (zero-safety) -/

/-- C6: for nonnegative inputs no `log 0` or `0/0` condition propagates:
every entry of the aggregator's output is a well-defined nonnegative real,
rows with zero accumulated total normalize to `0` (the `inf`/`NaN` cases),
and the cleaned logarithm maps every nonpositive argument (the `-inf`/`NaN`
cases) to `0`, so every segment-likelihood entry is a finite sum of such
values. -/
theorem zero_safety_no_nan (T R : ℕ → ℕ → ℝ) (n K : ℕ)
    (hT : ∀ i j, 0 ≤ T i j) (hR : ∀ i k, 0 ≤ R i k) :
    (∀ a b, 0 ≤ compute_transition_matrix T R n K a b)
  ∧ (∀ a, codeTotals T R n K a = 0 → ∀ b, rawMatrix T R n K a b = 0)
  ∧ (∀ x : ℝ, x ≤ 0 → safeLog x = 0) := by
  refine ⟨fun a b => ?_, fun a ha b => ?_, fun x hx => ?_⟩
  · unfold compute_transition_matrix
    by_cases h : a = b
    · subst h
      simp only [if_true]
      have := rawMatrix_nonneg T R n K a a hT hR
      linarith
    · simp only [h, if_false, sub_zero]
      have h1 := rawMatrix_nonneg T R n K a b hT hR
      have h2 := rawMatrix_nonneg T R n K b a hT hR
      linarith
  · simp [rawMatrix, cleanDiv, ha]
  · simp [safeLog, hx]

/-- Witness for C6: the zero-safety theorem applied at the all-zero input,
whose totals are all `0`, plus the cleaned log at `0` itself. -/
theorem zero_safety_no_nan_witness :
    (0 : ℝ) ≤ compute_transition_matrix (fun _ _ => (0 : ℝ)) (fun _ _ => (0 : ℝ)) 1 1 0 0
  ∧ rawMatrix (fun _ _ => (0 : ℝ)) (fun _ _ => (0 : ℝ)) 1 1 0 0 = 0
  ∧ safeLog 0 = 0 :=
  ⟨(zero_safety_no_nan (fun _ _ => 0) (fun _ _ => 0) 1 1
      (fun _ _ => le_refl 0) (fun _ _ => le_refl 0)).1 0 0,
   (zero_safety_no_nan (fun _ _ => 0) (fun _ _ => 0) 1 1
      (fun _ _ => le_refl 0) (fun _ _ => le_refl 0)).2.1 0 (by
        norm_num [codeTotals, qVal, Finset.sum_range_succ,
          show Finset.Ico 0 1 = ({0} : Finset ℕ) from rfl]) 0,
   (zero_safety_no_nan (fun _ _ => 0) (fun _ _ => 0) 1 1
      (fun _ _ => le_refl 0) (fun _ _ => le_refl 0)).2.2 0 (le_refl 0)⟩

/-! ### Theorems: C10 (`calculate_angle` is component-wise) -/

/-- The Euclidean norm of the example difference vector `(1,0)` is `1`. -/
theorem exDiffY_norm : vnorm (fun j => exY2 j - exO2 j) = 1 := by
  unfold vnorm
  rw [Fin.sum_univ_two]
  norm_num [exY2, exO2, Matrix.cons_val_zero, Matrix.cons_val_one, Matrix.head_cons,
    Real.sqrt_one]

/-- The Euclidean norm of the second example difference vector `(1,0)`. -/
theorem exDiffX_norm : vnorm (fun j => exX2 j - exO2 j) = 1 := by
  unfold vnorm
  rw [Fin.sum_univ_two]
  norm_num [exX2, exO2, Matrix.cons_val_zero, Matrix.cons_val_one, Matrix.head_cons,
    Real.sqrt_one]

/-- C10: `calculate_angle` returns, coordinate by coordinate, `arccos` of
the element-wise product of the two unit vectors; on the concrete
2-dimensional input with `y - o = x - o = (1,0)` its coordinate `1` is
`arccos 0 = π/2`, different from the scalar dot-product angle
`arccos 1 = 0`, so the result is a vector of per-coordinate values rather
than the single angle between the vectors. -/
theorem calculate_angle_componentwise :
    (∀ (d : ℕ) (o y x : Fin d → ℝ),
      (fun j => y j - o j) ≠ 0 → (fun j => x j - o j) ≠ 0 →
      ∀ k, calculate_angle o y x k
        = Real.arccos (((y k - o k) / vnorm (fun j => y j - o j))
            * ((x k - o k) / vnorm (fun j => x j - o j))))
  ∧ calculate_angle exO2 exY2 exX2 1 ≠ dotAngle exO2 exY2 exX2 := by
  constructor
  · intro d o y x hy hx k
    rfl
  · have hang : calculate_angle exO2 exY2 exX2 1 = Real.pi / 2 := by
      have h1 : calculate_angle exO2 exY2 exX2 1
          = Real.arccos (((exY2 1 - exO2 1) / vnorm (fun j => exY2 j - exO2 j))
              * ((exX2 1 - exO2 1) / vnorm (fun j => exX2 j - exO2 j))) := rfl
      rw [h1]
      norm_num [exY2, exX2, exO2, Matrix.cons_val_one, Matrix.head_cons, Real.arccos_zero]
    have hdot : dotAngle exO2 exY2 exX2 = 0 := by
      unfold dotAngle
      rw [exDiffY_norm, exDiffX_norm, Fin.sum_univ_two]
      norm_num [exY2, exX2, exO2, Matrix.cons_val_zero, Matrix.cons_val_one,
        Matrix.head_cons, Real.arccos_one]
    rw [hang, hdot]
    exact div_ne_zero Real.pi_ne_zero two_ne_zero

/-- Witness for C10: the component-wise description applied at the
concrete 2-dimensional input (both difference vectors are nonzero),
coordinate `0`. -/
theorem calculate_angle_componentwise_witness :
    calculate_angle exO2 exY2 exX2 0
      = Real.arccos (((exY2 0 - exO2 0) / vnorm (fun j => exY2 j - exO2 j))
          * ((exX2 0 - exO2 0) / vnorm (fun j => exX2 j - exO2 j))) :=
  calculate_angle_componentwise.1 2 exO2 exY2 exX2
    (by
      intro hcontra
      have h0 := congrFun hcontra 0
      norm_num [exY2, exO2, Matrix.cons_val_zero] at h0)
    (by
      intro hcontra
      have h0 := congrFun hcontra 0
      norm_num [exX2, exO2, Matrix.cons_val_zero] at h0) 0

end DynamoTree
